import Mathlib

/-!
Verification of the pg_diff repository (src/pg_diff/pg_diff.py).

The Python source is shallowly embedded below.  Strings are Lean `String`s,
but every text-processing primitive used by the program (strip, split,
startswith, substring containment, replacement, formatting) is defined here
over the underlying character list `String.data`, mirroring the Python
builtin semantics, so that everything evaluates inside the kernel.
Out-of-bounds list indexing and raised exceptions are modelled by `Option`
(`none` = the Python code raises instead of returning).
-/

namespace PgDiff

/-! ### Python string primitives (modelling the builtins used by the source) -/

/-- Rebuild a `String` from its character list. -/
def mkStr (cs : List Char) : String := ⟨cs⟩

/-- The whitespace characters removed by Python `str.strip()` (ASCII subset,
which is all that occurs in describe-table output). -/
def isSpaceChar (c : Char) : Bool := c == ' ' || c == '\t' || c == '\n' || c == '\r'

/-- Python `str.strip()`: drop whitespace from both ends. -/
def pyStrip (s : String) : String :=
  mkStr (((s.data.dropWhile isSpaceChar).reverse.dropWhile isSpaceChar).reverse)

/-- Python `s.split(sep)` for a single-character separator `sep`. -/
def pySplitChar (sep : Char) (s : String) : List String :=
  (List.splitOn sep s.data).map mkStr

/-- Python `s.startswith(pre)`. -/
def pyStartsWith (s pre : String) : Bool := pre.data.isPrefixOf s.data

/-- Helper for `pyIn`: is `pat` a contiguous sublist of the second argument? -/
def subAt (pat : List Char) : List Char → Bool
  | [] => pat.isEmpty
  | c :: cs => pat.isPrefixOf (c :: cs) || subAt pat cs

/-- Python `needle in hay` substring containment. -/
def pyIn (needle hay : String) : Bool := subAt needle.data hay.data

/-! ### The structural diff (model of the external DeepDiff call)

Modelled from the spec: the repository calls the third-party `DeepDiff`
library on the two loaded table-data dictionaries; the spec describes the
"Diff Result" as "added keys, removed keys, and changed values, reported in
a form that is empty if and only if the two inputs are deeply equal after
normalization".  A Document is an association list with string keys; the
value type `α` is generic and its Lean equality stands for Python deep
equality of the category's values (exact for the numeric categories). -/

/-- First-match association-list lookup (Python dict access by key;
with unique keys this is exactly the dict's mapping). -/
def dlookup {α : Type} (k : String) : List (String × α) → Option α
  | [] => none
  | (k0, v) :: rest => if k0 = k then some v else dlookup k rest

/-- The structural delta reported by the diff: keys only in the source,
keys only in the target, and keys present in both whose values differ. -/
structure DiffResult where
  removed : List String
  added : List String
  changed : List String
deriving DecidableEq

/-- Is the diff empty (the two documents deeply equal)? -/
def DiffResult.isEmpty (d : DiffResult) : Bool :=
  d.removed.isEmpty && d.added.isEmpty && d.changed.isEmpty

/-- The structural diff of two Documents. -/
def deepDiff {α : Type} [DecidableEq α] (src tgt : List (String × α)) : DiffResult where
  removed := (src.filter (fun p => (dlookup p.1 tgt).isNone)).map Prod.fst
  added := (tgt.filter (fun p => (dlookup p.1 src).isNone)).map Prod.fst
  changed := src.filterMap (fun p =>
    match dlookup p.1 tgt with
    | none => none
    | some v => if v = p.2 then none else some p.1)

/-- Model of `DBDiffBase.diff(self, target, verbose=False)`: both threads'
loads have produced `src_table_data` and `target_table_data`; when `verbose`
is set the two documents are printed (first component of the result),
and the returned value is `DeepDiff(src_table_data, target_table_data)`. -/
def DBDiffBase.diff {α : Type} [DecidableEq α]
    (src_table_data target_table_data : List (String × α)) (verbose : Bool) :
    Option (List (String × α) × List (String × α)) × DiffResult :=
  ((if verbose then some (src_table_data, target_table_data) else none),
   deepDiff src_table_data target_table_data)

/-! ### The Schema Text Normalizer (`DBTableSchemaDiff._format_raw_schema`)

Python sorts lists of strings by code points and lists of lists of strings
lexicographically; both orders are expressed through `String.data` so that
they are kernel-computable.  A Schema Document keeps the synthetic Columns
entry (a list of pipe-split rows) separate from the named sections (section
title -> line list); in the Python dict the key `'Columns:'` can never
collide with a section key because every section key is drawn from
`section_title_list`, which does not contain `'Columns:'`. -/

/-- Python `<=` on strings (lexicographic by code point), via char lists. -/
def lineLe (a b : String) : Prop := a.data ≤ b.data

instance : DecidableRel lineLe := fun a b => inferInstanceAs (Decidable (a.data ≤ b.data))

instance : IsTotal String lineLe := ⟨fun a b => IsTotal.total (r := (· ≤ ·)) a.data b.data⟩

instance : IsTrans String lineLe := ⟨fun _ _ _ h1 h2 => le_trans h1 h2⟩

instance : IsAntisymm String lineLe := ⟨fun _ _ h1 h2 => String.ext (le_antisymm h1 h2)⟩

/-- Python `<=` on lists of strings (lexicographic with string elements). -/
def rowLe (a b : List String) : Prop := a.map String.data ≤ b.map String.data

instance : DecidableRel rowLe := fun a b =>
  inferInstanceAs (Decidable (a.map String.data ≤ b.map String.data))

instance : IsTotal (List String) rowLe :=
  ⟨fun a b => IsTotal.total (r := (· ≤ ·)) (a.map String.data) (b.map String.data)⟩

instance : IsTrans (List String) rowLe := ⟨fun _ _ _ h1 h2 => le_trans h1 h2⟩

instance : IsAntisymm (List String) rowLe :=
  ⟨fun _ _ h1 h2 => List.map_injective_iff.mpr (fun _ _ h => String.ext h) (le_antisymm h1 h2)⟩

/-- Python `list.sort()` on a section's line list. -/
def sortLines (l : List String) : List String := List.insertionSort lineLe l

/-- Python `list.sort()` on the Columns entry (list of lists of fields). -/
def sortRows (l : List (List String)) : List (List String) := List.insertionSort rowLe l

/-- `section_title_list` from `_format_raw_schema`. -/
def section_title_list : List String :=
  ["Indexes:", "Foreign-key constraints:", "Referenced by:", "Triggers:"]

/-- A Schema Document: the synthetic `'Columns:'` entry plus the named
sections in dict insertion order. -/
structure SchemaDoc where
  columns : List (List String)
  sections : List (String × List String)
deriving DecidableEq

/-- `item_list = [item.strip() for item in item_list if item]`: drop falsy
(empty) lines, strip the rest. -/
def toItemList (lines : List String) : List String :=
  (lines.filter (fun s => s ≠ "")).map pyStrip

/-- One column row: `[element.strip() for element in item.split('|')]`. -/
def splitPipes (item : String) : List String :=
  (pySplitChar '|' item).map pyStrip

/-- One conditional header skip: Python reads `item_list[index]` (raising
`IndexError` past the end, modelled as `none`) and advances `index` when the
line starts with the given marker. -/
def skipIfStarts (pre : String) : List String → Option (List String)
  | [] => none
  | a :: rest => some (if pyStartsWith a pre then rest else a :: rest)

/-- The three header skips (`Table`, `Column`, `---`), in that fixed order. -/
def skipHeaderLines (items : List String) : Option (List String) := do
  let l1 ← skipIfStarts "Table" items
  let l2 ← skipIfStarts "Column" l1
  skipIfStarts "---" l2

/-- The column-accumulation loop: consume rows until a section title (left
unconsumed) or end of input, splitting each row on pipes. -/
def columnsLoop : List String → List (List String) × List String
  | [] => ([], [])
  | item :: rest =>
    if item ∈ section_title_list then ([], item :: rest)
    else
      let (cols, rem) := columnsLoop rest
      (splitPipes item :: cols, rem)

/-- Python dict assignment `result[section] = v`: replace in place if the
key exists (keeping its position), otherwise append. -/
def setEntry : List (String × List String) → String → List String →
    List (String × List String)
  | [], k, v => [(k, v)]
  | (k0, v0) :: rest, k, v =>
    if k0 = k then (k0, v) :: rest else (k0, v0) :: setEntry rest k v

/-- `if keyword in item` over the configured excluded keywords. -/
def isExcluded (exclued_keywords : List String) (item : String) : Bool :=
  exclued_keywords.any (fun keyword => pyIn keyword item)

/-- The body of the section loop, fused into one pass: `cur`/`buf` are the
section being filled and its accumulated lines.  Hitting a title finalizes
the current section (`result[section].sort()` after accumulation, and
`result[section] = []` resets on a repeated title, which `setEntry`
reproduces); a title as the very last item makes Python read
`item_list[index]` one past the end (`none`). -/
def sectionsGo (exclued_keywords : List String) (acc : List (String × List String))
    (cur : String) (buf : List String) : List String → Option (List (String × List String))
  | [] => some (setEntry acc cur (sortLines buf))
  | item :: rest =>
    if item ∈ section_title_list then
      match rest with
      | [] => none
      | _ :: _ => sectionsGo exclued_keywords (setEntry acc cur (sortLines buf)) item [] rest
    else
      sectionsGo exclued_keywords acc cur
        (buf ++ (if isExcluded exclued_keywords item then [] else [pyStrip item])) rest

/-- The outer section loop (`while index < length`), started on the
remainder left by the column loop.  A lone trailing line (any section name
with nothing after it) crashes on `item = item_list[index]`. -/
def sectionsRun (exclued_keywords : List String) :
    List String → Option (List (String × List String))
  | [] => some []
  | t :: rest =>
    match rest with
    | [] => none
    | _ :: _ => sectionsGo exclued_keywords [] t [] rest

/-- `_format_raw_schema` on the already-split, stripped item list:
header skips, column accumulation (sorted), then the section loop. -/
def formatItems (exclued_keywords : List String) (items : List String) :
    Option SchemaDoc := do
  let rest ← skipHeaderLines items
  match rest with
  | [] => none
  | _ :: _ =>
    let (cols, rem) := columnsLoop rest
    let secs ← sectionsRun exclued_keywords rem
    some ⟨sortRows cols, secs⟩

/-- `_format_raw_schema` on a list of raw lines (the text split on
newlines). -/
def formatLines (exclued_keywords : List String) (lines : List String) :
    Option SchemaDoc :=
  formatItems exclued_keywords (toItemList lines)

/-- `DBTableSchemaDiff._format_raw_schema(raw_schema, exclued_keywords)`. -/
def _format_raw_schema (raw_schema : String) (exclued_keywords : List String) :
    Option SchemaDoc :=
  formatLines exclued_keywords (pySplitChar '\n' raw_schema)

/-- `IGNORE_SCHEMA_SECTIONS`, the excluded substrings used by
`_load_table_schema`. -/
def IGNORE_SCHEMA_SECTIONS : List String := ["bucardo", "pglogical"]

/-! ### The info branch of `diff_or_info` (no target supplied) -/

/-- A Python value as it appears in the info branch: an int, or the string
produced by a size/count formatter. -/
inductive PyVal where
  | int : Int → PyVal
  | str : String → PyVal
deriving DecidableEq

/-- Decimal digit character. -/
def digitChar (n : Nat) : Char := Char.ofNat (48 + n % 10)

/-- Decimal digits of a natural number (fuel-driven division loop). -/
def natDigitsGo : Nat → Nat → List Char
  | 0, _ => []
  | fuel + 1, n => if n < 10 then [digitChar n] else natDigitsGo fuel (n / 10) ++ [digitChar (n % 10)]

/-- Decimal digits of `n`. -/
def natDigits (n : Nat) : List Char := natDigitsGo (n + 1) n

/-- Insert the thousands separators; runs over the reversed digit list. -/
def commaGo : Nat → List Char → List Char
  | _, [] => []
  | i, c :: cs => (if i ≠ 0 && i % 3 == 0 then [',', c] else [c]) ++ commaGo (i + 1) cs

/-- `count_format(num)`, i.e. `'{:,}'.format(num)`: decimal with commas
every three digits. -/
def count_format (num : Int) : String :=
  mkStr ((if num < 0 then ['-'] else []) ++ (commaGo 0 (natDigits num.natAbs).reverse).reverse)

/-- Python `str.format` for templates whose only fields are auto-numbered
empty braces, as in the source: each field consumes one positional
argument, and a field with no argument left raises `IndexError` (`none`).
Surplus arguments are ignored, as in Python. -/
def pyFormatGo (args : List String) : List Char → Option (List Char)
  | [] => some []
  | '\x7b' :: '\x7d' :: cs =>
    (match args with
     | [] => none
     | a :: rest => (pyFormatGo rest cs).map (fun t => a.data ++ t))
  | c :: cs => (pyFormatGo args cs).map (fun t => c :: t)

/-- Python `template.format(*args)` for brace-pair-only templates. -/
def pyFormat (template : String) (args : List String) : Option String :=
  (pyFormatGo args template.data).map mkStr

/-- Replace the first `n` occurrences of `old` (nonempty) by `new`;
the first argument is fuel, at least the length of the subject. -/
def replaceGo (old new : List Char) : Nat → Nat → List Char → List Char
  | 0, _, cs => cs
  | _ + 1, _, [] => []
  | fuel + 1, n, c :: cs =>
    if n != 0 && !old.isEmpty && old.isPrefixOf (c :: cs) then
      new ++ replaceGo old new fuel (n - 1) ((c :: cs).drop old.length)
    else c :: replaceGo old new fuel n cs

/-- Python `s.replace(old, new, count)`: the three-argument form requires an
integer count (a string raises `TypeError`, modelled as `none`); a negative
count replaces every occurrence. -/
def pyReplace (s old new : String) (count : PyVal) : Option String :=
  match count with
  | .str _ => none
  | .int n =>
    let limit : Nat := if n < 0 then s.data.length else n.toNat
    some (mkStr (replaceGo old.data new.data s.data.length limit s.data))

/-- Console output of the info branch. -/
inductive InfoEvent where
  | infoResultHeader : InfoEvent
  | infoListing : List (String × PyVal) → InfoEvent
  | totalLine : String → InfoEvent
deriving DecidableEq

/-- The no-target branch of `diff_or_info` (lines 557-580): load has filled
`table_data`; the total is summed, size/count categories convert the total
and the displayed values to strings (`size_fmt` models the external
`hurry.filesize.size`), verbose prints the reversed listing, and the final
line is `'Total {}: {}'.format(diff_type.replace('_', ' ', total))` -- with
`total` passed as `replace`'s count argument and `format` left with a
single argument for two fields.  Result: the events printed before any
exception, and whether the branch completed without raising. -/
def info_branch (size_fmt : Int → String) (diff_type : String)
    (table_data : List (String × Int)) (verbose : Bool) : List InfoEvent × Bool :=
  let total : Int := (table_data.map Prod.snd).foldl (· + ·) 0
  let totalV : PyVal :=
    if pyIn "size" diff_type then .str (size_fmt total)
    else if pyIn "count" diff_type then .str (count_format total)
    else .int total
  let shown : List (String × PyVal) :=
    if pyIn "size" diff_type then table_data.map (fun p => (p.1, .str (size_fmt p.2)))
    else if pyIn "count" diff_type then table_data.map (fun p => (p.1, .str (count_format p.2)))
    else table_data.map (fun p => (p.1, .int p.2))
  let pre : List InfoEvent :=
    if verbose then [.infoResultHeader, .infoListing shown.reverse] else []
  match pyReplace diff_type "_" " " totalV with
  | none => (pre, false)
  | some replaced =>
    match pyFormat "Total \x7b\x7d: \x7b\x7d" [replaced] with
    | none => (pre, false)
    | some line => (pre ++ [.totalLine line], true)

/-! ### Validation and `main` (`_validate`, lines 583-629) -/

def DIFF_TYPE_TABLE_COUNT : String := "table_count"

def DIFF_TYPE_TABLE_NAME : String := "table_name"

def DIFF_TYPE_ROW_COUNT : String := "row_count"

def DIFF_TYPE_TABLE_SCHEMA : String := "table_schema"

def DIFF_TYPE_TABLE_SIZE : String := "table_size"

def DIFF_TYPE_INDEX_SIZE : String := "index_size"

def DIFF_TYPE_TABLE_TOTAL_SIZE : String := "table_total_size"

def DIFF_TYPE_SEQUENCE : String := "sequence"

/-- The eight category names accepted by the `--type` check in `_validate`. -/
def validTypeList : List String :=
  [DIFF_TYPE_TABLE_COUNT, DIFF_TYPE_TABLE_NAME, DIFF_TYPE_ROW_COUNT,
   DIFF_TYPE_TABLE_SCHEMA, DIFF_TYPE_TABLE_SIZE, DIFF_TYPE_INDEX_SIZE,
   DIFF_TYPE_TABLE_TOTAL_SIZE, DIFF_TYPE_SEQUENCE]

/-- The docopt argument dictionary. -/
structure Args where
  type : String
  source : String
  target : Option String
  version : Bool
  verbose : Bool
  help : Bool
deriving DecidableEq

/-- `_validate(args)`: the schema accepts the args iff `--type` is one of
the eight categories and `--source` is a nonempty string (`--target` is a
string or None, and the flags are booleans, by construction); on
`SchemaError` the process exits (`none`). -/
def _validate (args : Args) : Option Args :=
  if args.type ∈ validTypeList ∧ args.source.length ≠ 0 then some args else none

/-- Observable connection behavior of `main`. -/
inductive MainEvent where
  | validationError : MainEvent
  | connectAttempt : String → MainEvent
deriving DecidableEq

/-- Connections attempted by `diff_or_info` once it runs: `create_conn` for
the source load, and for the target load when a target is supplied
(`DBDiffBase.__init__` itself opens no connection). -/
def diff_or_info_connects (source : String) (target : Option String) : List MainEvent :=
  match target with
  | some t => [.connectAttempt source, .connectAttempt t]
  | none => [.connectAttempt source]

/-- `main`: validation runs first; a validation failure exits before
`diff_or_info` is called at all. -/
def main_events (args : Args) : List MainEvent :=
  match _validate args with
  | none => [.validationError]
  | some a => diff_or_info_connects a.source a.target

/-! ### Helper-routine lifecycle (`DBTableRowCountDiff`, `DBSequenceDiff`)

The four SQL constants are transcribed verbatim from the source; a server
routine is identified, as in PostgreSQL, by its name together with its
argument-type list, both read off the SQL text. -/

def CREATE_ROW_COUNT_FUNC_SQL : String :=
  "\ncreate or replace function\ncount_rows(schema text, tablename text) returns integer\nas\n$body$\ndeclare\n  result integer;\n  query varchar;\nbegin\n  query := \x27SELECT count(1) FROM \x27 || schema || \x27.\x27 || tablename;\n  execute query into result;\n  return result;\nend;\n$body$\nlanguage plpgsql\n    "

def REMOVE_ROW_COUNT_FUNC_SQL : String :=
  "\ndrop function if exists count_rows(text, text)\n    "

def CREATE_GET_SEQUENCE_LAST_VALUE_FUNC_SQL : String :=
  "\ncreate or replace function get_seq_last_value(seq_name text)\nreturns integer as\n$$\ndeclare\n  last_value integer;\n  query varchar;\nbegin\n  query := \x27SELECT last_value FROM \x27 || seq_name;\n  execute query into last_value;\n  return last_value;\nend;\n$$\nlanguage plpgsql\n    "

def REMOVE_GET_SEQUENCE_LAST_VALUE_FUNC_SQL : String :=
  "\ndrop function if exists get_seq_last_value(text, text)\n    "

/-- Split at the first occurrence of `pat`: the part before it and the part
after it. -/
def breakAtSub (pat : List Char) : List Char → Option (List Char × List Char)
  | [] => none
  | c :: cs =>
    if pat.isPrefixOf (c :: cs) then some ([], (c :: cs).drop pat.length)
    else
      match breakAtSub pat cs with
      | none => none
      | some (b, a) => some (c :: b, a)

/-- Last space-separated word of a string (the SQL type of one argument,
whether written `name type` or bare `type`). -/
def lastWord (s : String) : String :=
  match ((List.splitOn ' ' s.data).filter (fun w => w ≠ [])).getLast? with
  | some w => mkStr w
  | none => ""

/-- The argument-type list inside the parentheses of a function clause. -/
def parseArgTypes (argsPart : List Char) : List String :=
  (List.splitOn ',' argsPart).map (fun a => lastWord (pyStrip (mkStr a)))

/-- Read `name(argtypes)` from the SQL text following the keyword `kw`. -/
def parseSigAfter (kw : String) (sql : String) : Option (String × List String) := do
  let (_, afterKw) ← breakAtSub kw.data sql.data
  let (namePart, afterParen) ← breakAtSub ['('] afterKw
  let (argsPart, _) ← breakAtSub [')'] afterParen
  some (pyStrip (mkStr namePart), parseArgTypes argsPart)

/-- The routine signature defined by a `create or replace function`
statement. -/
def parseCreateFuncSig (sql : String) : Option (String × List String) :=
  parseSigAfter "function" sql

/-- The routine signature targeted by a `drop function if exists`
statement. -/
def parseDropFuncSig (sql : String) : Option (String × List String) :=
  parseSigAfter "drop function if exists" sql

/-- `create or replace function`: adds the signature to the database's
routine set if not already present. -/
def applyCreateFunction (st : List (String × List String))
    (sig : String × List String) : List (String × List String) :=
  if sig ∈ st then st else st ++ [sig]

/-- `drop function if exists name(args)`: removes exactly that signature;
dropping an absent signature succeeds and does nothing. -/
def applyDropIfExists (st : List (String × List String))
    (sig : String × List String) : List (String × List String) :=
  st.filter (fun s => s ≠ sig)

/-- The routine-state effect of a helper-based load
(`_load_row_count` / `_load_sequence_count`): the create statement runs
first (unless it itself fails, `createSucceeds = false`); whatever happens
afterwards (fetch success, query error, `exit`), the `finally` block runs
the remove statement before control leaves the function. -/
def helperLoadEffect (createSql dropSql : String) (createSucceeds : Bool)
    (st : List (String × List String)) : List (String × List String) :=
  let st1 :=
    if createSucceeds then
      match parseCreateFuncSig createSql with
      | some sig => applyCreateFunction st sig
      | none => st
    else st
  match parseDropFuncSig dropSql with
  | some sig => applyDropIfExists st1 sig
  | none => st1

/-! ### Shapes of normalizer input used in the statements

`TitleFree`/`HeadTitle` describe the column segment and the section
remainder of an item list; `SectionWisePerm` relates two remainders that
agree on their section structure and permute only the lines inside each
section; block lists describe a remainder as explicit (title, body)
sections. -/

/-- The trimmed, non-excluded lines of one section body, in input order
(what the inner section loop appends before sorting). -/
def filterBody (exclued_keywords : List String) (b : List String) : List String :=
  (b.filter (fun item => !isExcluded exclued_keywords item)).map pyStrip

/-- No line of `l` is a section title. -/
def TitleFree (l : List String) : Prop := ∀ x ∈ l, x ∉ section_title_list

instance : ∀ l, Decidable (TitleFree l) := fun l =>
  inferInstanceAs (Decidable (∀ x ∈ l, x ∉ section_title_list))

/-- `l` is empty or begins with a section title. -/
def HeadTitle : List String → Prop
  | [] => True
  | x :: _ => x ∈ section_title_list

instance : ∀ l, Decidable (HeadTitle l)
  | [] => Decidable.isTrue trivial
  | x :: _ => inferInstanceAs (Decidable (x ∈ section_title_list))

/-- Two section remainders with the same title structure whose bodies are
permutations of each other, section by section. -/
inductive SectionWisePerm : List String → List String → Prop
  | nil : SectionWisePerm [] []
  | cons (t : String) (b b' rest rest' : List String) :
      b.Perm b' → TitleFree b → HeadTitle rest → SectionWisePerm rest rest' →
      SectionWisePerm (t :: (b ++ rest)) (t :: (b' ++ rest'))

/-- The item lines of a list of (title, body) section blocks. -/
def flattenBlocks (bs : List (String × List String)) : List String :=
  bs.flatMap (fun p => p.1 :: p.2)

/-- Well-formed blocks: every title is a section title and no body line is
one. -/
def WFBlocks (bs : List (String × List String)) : Prop :=
  ∀ p ∈ bs, p.1 ∈ section_title_list ∧ TitleFree p.2

instance : ∀ bs, Decidable (WFBlocks bs) := fun bs =>
  inferInstanceAs (Decidable (∀ p ∈ bs, p.1 ∈ section_title_list ∧ TitleFree p.2))

/-- The last block's body is nonempty (otherwise the input ends with a
section title and the section loop reads past the end). -/
def LastBlockFilled : List (String × List String) → Prop
  | [] => True
  | [p] => p.2 ≠ []
  | _ :: p :: bs => LastBlockFilled (p :: bs)

instance instDecidableLastBlockFilled : ∀ bs, Decidable (LastBlockFilled bs)
  | [] => Decidable.isTrue trivial
  | [p] => inferInstanceAs (Decidable (p.2 ≠ []))
  | _ :: p :: bs => instDecidableLastBlockFilled (p :: bs)

/-! ## Theorems -/

/-! ### Association-list lookups -/

theorem dlookup_eq_none_iff {α : Type} (B : List (String × α)) (k : String) :
    dlookup k B = none ↔ k ∉ B.map Prod.fst := by
  induction B with
  | nil => simp [dlookup]
  | cons p rest ih =>
    obtain ⟨k0, v⟩ := p
    by_cases h : k0 = k
    · subst h
      simp [dlookup]
    · simp [dlookup, h, ih, Ne.symm h]

theorem dlookup_mem {α : Type} {B : List (String × α)} {k : String} {v : α}
    (h : dlookup k B = some v) : (k, v) ∈ B := by
  induction B with
  | nil => simp [dlookup] at h
  | cons p rest ih =>
    obtain ⟨k0, v0⟩ := p
    by_cases hk : k0 = k
    · subst hk
      simp [dlookup] at h
      simp [h]
    · simp [dlookup, hk] at h
      exact List.mem_cons_of_mem _ (ih h)

theorem mem_dlookup {α : Type} {A : List (String × α)} {k : String} {v : α}
    (nd : (A.map Prod.fst).Nodup) (h : (k, v) ∈ A) : dlookup k A = some v := by
  induction A with
  | nil => simp at h
  | cons p rest ih =>
    obtain ⟨k0, v0⟩ := p
    simp only [List.map_cons, List.nodup_cons] at nd
    rcases List.mem_cons.mp h with h1 | h1
    · rw [Prod.mk.injEq] at h1
      simp [dlookup, h1.1.symm, h1.2.symm]
    · have hk : k0 ≠ k := by
        intro he
        subst he
        exact nd.1 (List.mem_map.mpr ⟨(k0, v), h1, rfl⟩)
      simp [dlookup, hk]
      exact ih nd.2 h1

theorem dlookup_ne_none_of_mem {α : Type} {A : List (String × α)} {p : String × α}
    (h : p ∈ A) : dlookup p.1 A ≠ none := by
  rw [Ne, dlookup_eq_none_iff]
  simp only [not_not]
  exact List.mem_map.mpr ⟨p, h, rfl⟩

theorem map_fst_filter_key {α : Type} (q : String → Bool) (A : List (String × α)) :
    (A.filter (fun p => q p.1)).map Prod.fst = (A.map Prod.fst).filter q := by
  induction A with
  | nil => rfl
  | cons p rest ih =>
    by_cases h : q p.1 <;> simp [List.filter_cons, h, ih]

/-! ### The structural diff: key sets and emptiness -/

theorem mem_map_fst_filter_isNone {α : Type} [DecidableEq α]
    (A B : List (String × α)) (k : String) :
    k ∈ (A.filter (fun p => (dlookup p.1 B).isNone)).map Prod.fst ↔
      (k ∈ A.map Prod.fst ∧ k ∉ B.map Prod.fst) := by
  constructor
  · intro hk
    obtain ⟨p, hp, rfl⟩ := List.mem_map.mp hk
    obtain ⟨hmem, hpred⟩ := List.mem_filter.mp hp
    refine ⟨List.mem_map.mpr ⟨p, hmem, rfl⟩, ?_⟩
    rw [← dlookup_eq_none_iff, ← Option.isNone_iff_eq_none]
    exact hpred
  · rintro ⟨hA, hB⟩
    obtain ⟨p, hp, rfl⟩ := List.mem_map.mp hA
    refine List.mem_map.mpr ⟨p, List.mem_filter.mpr ⟨hp, ?_⟩, rfl⟩
    rw [Option.isNone_iff_eq_none, dlookup_eq_none_iff]
    exact hB

theorem deepDiff_removed_mem {α : Type} [DecidableEq α]
    (A B : List (String × α)) (k : String) :
    k ∈ (deepDiff A B).removed ↔ (k ∈ A.map Prod.fst ∧ k ∉ B.map Prod.fst) :=
  mem_map_fst_filter_isNone A B k

theorem deepDiff_added_mem {α : Type} [DecidableEq α]
    (A B : List (String × α)) (k : String) :
    k ∈ (deepDiff A B).added ↔ (k ∈ B.map Prod.fst ∧ k ∉ A.map Prod.fst) :=
  mem_map_fst_filter_isNone B A k

theorem deepDiff_isEmpty_iff {α : Type} [DecidableEq α]
    (A B : List (String × α))
    (ndA : (A.map Prod.fst).Nodup) (ndB : (B.map Prod.fst).Nodup) :
    (deepDiff A B).isEmpty = true ↔ ∀ k, dlookup k A = dlookup k B := by
  unfold DiffResult.isEmpty
  simp only [Bool.and_eq_true, List.isEmpty_iff]
  constructor
  · rintro ⟨⟨hrem, hadd⟩, hchg⟩ k
    cases hA : dlookup k A with
    | none =>
      cases hB : dlookup k B with
      | none => rfl
      | some w =>
        exfalso
        have hmem : k ∈ (deepDiff A B).added := by
          rw [deepDiff_added_mem]
          refine ⟨List.mem_map.mpr ⟨(k, w), dlookup_mem hB, rfl⟩, ?_⟩
          rw [← dlookup_eq_none_iff]
          exact hA
        rw [hadd] at hmem
        exact List.not_mem_nil k hmem
    | some v =>
      have hkA : (k, v) ∈ A := dlookup_mem hA
      cases hB : dlookup k B with
      | none =>
        exfalso
        have hmem : k ∈ (deepDiff A B).removed := by
          rw [deepDiff_removed_mem]
          refine ⟨List.mem_map.mpr ⟨(k, v), hkA, rfl⟩, ?_⟩
          rw [← dlookup_eq_none_iff]
          exact hB
        rw [hrem] at hmem
        exact List.not_mem_nil k hmem
      | some w =>
        have hf := List.filterMap_eq_nil_iff.mp hchg (k, v) hkA
        simp only [hB] at hf
        by_cases hvw : w = v
        · rw [hvw]
        · simp [hvw] at hf
  · intro hEq
    refine ⟨⟨?_, ?_⟩, ?_⟩
    · have : ∀ p ∈ A, ¬((dlookup p.1 B).isNone = true) := by
        intro p hp
        have hv : dlookup p.1 B = some p.2 := (hEq p.1) ▸ mem_dlookup ndA hp
        simp [hv]
      show (A.filter (fun p => (dlookup p.1 B).isNone)).map Prod.fst = []
      rw [List.filter_eq_nil_iff.mpr this]
      rfl
    · have : ∀ p ∈ B, ¬((dlookup p.1 A).isNone = true) := by
        intro p hp
        have hv : dlookup p.1 A = some p.2 := (hEq p.1).symm ▸ mem_dlookup ndB hp
        simp [hv]
      show (B.filter (fun p => (dlookup p.1 A).isNone)).map Prod.fst = []
      rw [List.filter_eq_nil_iff.mpr this]
      rfl
    · show A.filterMap (fun p =>
          match dlookup p.1 B with
          | none => none
          | some v => if v = p.2 then none else some p.1) = []
      rw [List.filterMap_eq_nil_iff]
      intro p hp
      have hv : dlookup p.1 B = some p.2 := (hEq p.1) ▸ mem_dlookup ndA hp
      simp [hv]

theorem filter_key_single {α : Type} {A : List (String × α)} {k0 : String} {va : α}
    (nd : (A.map Prod.fst).Nodup) (h : dlookup k0 A = some va) :
    A.filter (fun p => p.1 = k0) = [(k0, va)] := by
  induction A with
  | nil => simp [dlookup] at h
  | cons p rest ih =>
    obtain ⟨k, v⟩ := p
    simp only [List.map_cons, List.nodup_cons] at nd
    by_cases hk : k = k0
    · subst hk
      simp only [dlookup, if_pos] at h
      have hva : v = va := by
        simpa using h
      subst hva
      have hrest : rest.filter (fun p => p.1 = k) = [] := by
        rw [List.filter_eq_nil_iff]
        rintro ⟨k1, v1⟩ hp hq
        simp only [decide_eq_true_eq] at hq
        exact nd.1 (List.mem_map.mpr ⟨(k1, v1), hp, hq⟩)
      simp [List.filter_cons, hrest]
    · rw [dlookup, if_neg hk] at h
      simp [List.filter_cons, hk, ih nd.2 h]


theorem filterMap_key_guard {α : Type} (k0 : String) (A : List (String × α)) :
    (A.filterMap (fun p => if p.1 = k0 then some k0 else none))
      = (A.filter (fun p => p.1 = k0)).map (fun _ => k0) := by
  induction A with
  | nil => rfl
  | cons p rest ih =>
    by_cases h : p.1 = k0 <;>
      simp [List.filterMap_cons, List.filter_cons, h, ih]

theorem deepDiff_single_change {α : Type} [DecidableEq α]
    {A B : List (String × α)} {k0 : String} {va vb : α}
    (ndA : (A.map Prod.fst).Nodup)
    (hA : dlookup k0 A = some va) (hB : dlookup k0 B = some vb)
    (hne : va ≠ vb) (hrest : ∀ k, k ≠ k0 → dlookup k A = dlookup k B) :
    (deepDiff A B).removed = [] ∧ (deepDiff A B).added = [] ∧
      (deepDiff A B).changed = [k0] := by
  refine ⟨?_, ?_, ?_⟩
  · show (A.filter (fun p => (dlookup p.1 B).isNone)).map Prod.fst = []
    have hnil : A.filter (fun p => (dlookup p.1 B).isNone) = [] := by
      rw [List.filter_eq_nil_iff]
      intro p hp
      by_cases hk : p.1 = k0
      · rw [hk]
        simp [hB]
      · have heq := hrest p.1 hk
        have hnn := dlookup_ne_none_of_mem hp
        rw [heq] at hnn
        simp only [Option.isNone_iff_eq_none, decide_eq_true_eq]
        exact hnn
    rw [hnil]
    rfl
  · show (B.filter (fun p => (dlookup p.1 A).isNone)).map Prod.fst = []
    have hnil : B.filter (fun p => (dlookup p.1 A).isNone) = [] := by
      rw [List.filter_eq_nil_iff]
      intro p hp
      by_cases hk : p.1 = k0
      · rw [hk]
        simp [hA]
      · have heq := hrest p.1 hk
        have hnn := dlookup_ne_none_of_mem hp
        rw [← heq] at hnn
        simp only [Option.isNone_iff_eq_none, decide_eq_true_eq]
        exact hnn
    rw [hnil]
    rfl
  · show A.filterMap (fun p =>
        match dlookup p.1 B with
        | none => none
        | some v => if v = p.2 then none else some p.1) = [k0]
    have hcong : ∀ p ∈ A, (match dlookup p.1 B with
        | none => none
        | some v => if v = p.2 then none else some p.1)
          = if p.1 = k0 then some k0 else none := by
      intro p hp
      have hpA : dlookup p.1 A = some p.2 := mem_dlookup ndA hp
      by_cases hk : p.1 = k0
      · have hva : p.2 = va := by
          rw [hk, hA] at hpA
          exact (Option.some_inj.mp hpA).symm
        rw [hk, hB, hva]
        simp [Ne.symm hne, hk]
      · have heq := hrest p.1 hk
        rw [← heq, hpA]
        simp [hk]
    rw [List.filterMap_congr hcong, filterMap_key_guard,
      filter_key_single ndA hA]
    rfl

theorem map_fst_filter_lookup_none {α : Type} [DecidableEq α]
    (A B : List (String × α)) :
    (A.filter (fun p => (dlookup p.1 B).isNone)).map Prod.fst
      = (A.map Prod.fst).filter (fun k => (dlookup k B).isNone) := by
  induction A with
  | nil => rfl
  | cons p rest ih =>
    by_cases h : (dlookup p.1 B).isNone <;>
      simp [List.filter_cons, h, ih]

theorem key_filter_card {α : Type} [DecidableEq α]
    (A B : List (String × α)) (ndA : (A.map Prod.fst).Nodup) :
    ((A.map Prod.fst).filter (fun k => (dlookup k B).isNone)).length
      = ((A.map Prod.fst).toFinset \ (B.map Prod.fst).toFinset).card := by
  have hset : ((A.map Prod.fst).filter (fun k => (dlookup k B).isNone)).toFinset
      = (A.map Prod.fst).toFinset \ (B.map Prod.fst).toFinset := by
    ext k
    simp only [List.mem_toFinset, List.mem_filter, Finset.mem_sdiff,
      Option.isNone_iff_eq_none, decide_eq_true_eq, dlookup_eq_none_iff]
  rw [← hset, List.toFinset_card_of_nodup (ndA.filter _)]

/-- Claim C1: for documents with unique keys (as every extractor produces),
the structural diff is empty iff the two documents are deeply equal as
key-to-value maps; the diff of a document with itself is empty; and two
documents that differ in exactly one key's value yield a diff with no
removals, no additions, and exactly that key changed. -/
theorem C1_diff_empty_iff_deeply_equal {α : Type} [DecidableEq α]
    (A B : List (String × α))
    (ndA : (A.map Prod.fst).Nodup) (ndB : (B.map Prod.fst).Nodup) :
    ((deepDiff A B).isEmpty = true ↔ ∀ k, dlookup k A = dlookup k B)
    ∧ (deepDiff A A).isEmpty = true
    ∧ (∀ k0 va vb, dlookup k0 A = some va → dlookup k0 B = some vb → va ≠ vb →
        (∀ k, k ≠ k0 → dlookup k A = dlookup k B) →
        (deepDiff A B).removed = [] ∧ (deepDiff A B).added = [] ∧
          (deepDiff A B).changed = [k0]) :=
  ⟨deepDiff_isEmpty_iff A B ndA ndB,
   (deepDiff_isEmpty_iff A A ndA ndA).mpr (fun _ => rfl),
   fun _ _ _ hA hB hne hrest => deepDiff_single_change ndA hA hB hne hrest⟩

/-- Witness for C1: the spec's row-count scenario, `orders` going 5 to 6. -/
theorem C1_diff_empty_iff_deeply_equal_witness :
    (deepDiff [("orders", (5 : Int)), ("users", 10)]
        [("orders", 6), ("users", 10)]).removed = []
    ∧ (deepDiff [("orders", (5 : Int)), ("users", 10)]
        [("orders", 6), ("users", 10)]).added = []
    ∧ (deepDiff [("orders", (5 : Int)), ("users", 10)]
        [("orders", 6), ("users", 10)]).changed = ["orders"] :=
  (C1_diff_empty_iff_deeply_equal
      [("orders", (5 : Int)), ("users", 10)] [("orders", 6), ("users", 10)]
      (by decide) (by decide)).2.2 "orders" 5 6 (by decide) (by decide)
    (by decide)
    (by
      intro k hk
      simp [dlookup, Ne.symm hk])

/-- Claim C7: the removed keys are exactly the keys of the source absent
from the target, the added keys exactly those of the target absent from the
source, and their counts are the cardinalities of the two key-set
differences. -/
theorem C7_removed_added_key_sets {α : Type} [DecidableEq α]
    (A B : List (String × α))
    (ndA : (A.map Prod.fst).Nodup) (ndB : (B.map Prod.fst).Nodup) :
    (∀ k, k ∈ (deepDiff A B).removed ↔ (k ∈ A.map Prod.fst ∧ k ∉ B.map Prod.fst))
    ∧ (∀ k, k ∈ (deepDiff A B).added ↔ (k ∈ B.map Prod.fst ∧ k ∉ A.map Prod.fst))
    ∧ (deepDiff A B).removed.length
        = ((A.map Prod.fst).toFinset \ (B.map Prod.fst).toFinset).card
    ∧ (deepDiff A B).added.length
        = ((B.map Prod.fst).toFinset \ (A.map Prod.fst).toFinset).card := by
  refine ⟨deepDiff_removed_mem A B, deepDiff_added_mem A B, ?_, ?_⟩
  · show ((A.filter (fun p => (dlookup p.1 B).isNone)).map Prod.fst).length = _
    rw [map_fst_filter_lookup_none, key_filter_card A B ndA]
  · show ((B.filter (fun p => (dlookup p.1 A).isNone)).map Prod.fst).length = _
    rw [map_fst_filter_lookup_none, key_filter_card B A ndB]

/-- Witness for C7: the spec's scenario with `audit` present only in the
target. -/
theorem C7_removed_added_key_sets_witness :
    ("audit" ∈ (deepDiff [("orders", (5 : Int)), ("users", 10)]
        [("orders", 6), ("users", 10), ("audit", 0)]).added
      ↔ ("audit" ∈ (["orders", "users", "audit"] : List String)
          ∧ "audit" ∉ (["orders", "users"] : List String)))
    ∧ (deepDiff [("orders", (5 : Int)), ("users", 10)]
        [("orders", 6), ("users", 10), ("audit", 0)]).removed.length
        = ((["orders", "users"] : List String).toFinset \
            (["orders", "users", "audit"] : List String).toFinset).card :=
  ⟨(C7_removed_added_key_sets [("orders", (5 : Int)), ("users", 10)]
      [("orders", 6), ("users", 10), ("audit", 0)]
      (by decide) (by decide)).2.1 "audit",
   (C7_removed_added_key_sets [("orders", (5 : Int)), ("users", 10)]
      [("orders", 6), ("users", 10), ("audit", 0)]
      (by decide) (by decide)).2.2.1⟩

/-- Claim C10: for fixed loaded table data, the diff value returned by
`DBDiffBase.diff` does not depend on the `verbose` flag; `verbose` only
selects what is printed. -/
theorem C10_verbose_noninterference {α : Type} [DecidableEq α]
    (src_table_data target_table_data : List (String × α)) (v1 v2 : Bool) :
    (DBDiffBase.diff src_table_data target_table_data v1).2
      = (DBDiffBase.diff src_table_data target_table_data v2).2 := rfl

/-! ### Sorting: Python `list.sort()` facts -/

theorem sortLines_congr {a b : List String} (h : a.Perm b) : sortLines a = sortLines b :=
  List.eq_of_perm_of_sorted
    ((List.perm_insertionSort lineLe a).trans (h.trans (List.perm_insertionSort lineLe b).symm))
    (List.sorted_insertionSort lineLe a) (List.sorted_insertionSort lineLe b)

theorem sortRows_congr {a b : List (List String)} (h : a.Perm b) : sortRows a = sortRows b :=
  List.eq_of_perm_of_sorted
    ((List.perm_insertionSort rowLe a).trans (h.trans (List.perm_insertionSort rowLe b).symm))
    (List.sorted_insertionSort rowLe a) (List.sorted_insertionSort rowLe b)

theorem sortLines_sorted (l : List String) : (sortLines l).Sorted lineLe :=
  List.sorted_insertionSort lineLe l

theorem sortRows_sorted (l : List (List String)) : (sortRows l).Sorted rowLe :=
  List.sorted_insertionSort rowLe l

theorem mem_sortLines {x : String} {l : List String} : x ∈ sortLines l ↔ x ∈ l :=
  (List.perm_insertionSort lineLe l).mem_iff

theorem mem_sortRows {x : List String} {l : List (List String)} : x ∈ sortRows l ↔ x ∈ l :=
  (List.perm_insertionSort rowLe l).mem_iff

/-! ### `setEntry` (Python dict assignment) -/

theorem setEntry_keys_of_mem {acc : List (String × List String)} {k : String}
    (v : List String) (h : k ∈ acc.map Prod.fst) :
    (setEntry acc k v).map Prod.fst = acc.map Prod.fst := by
  induction acc with
  | nil => simp at h
  | cons p rest ih =>
    obtain ⟨k0, v0⟩ := p
    by_cases hk : k0 = k
    · simp [setEntry, hk]
    · simp only [List.map_cons, List.mem_cons] at h
      rcases h with h | h
      · exact absurd h.symm hk
      · simp [setEntry, hk, ih h]

theorem setEntry_of_not_mem {acc : List (String × List String)} {k : String}
    (v : List String) (h : k ∉ acc.map Prod.fst) :
    setEntry acc k v = acc ++ [(k, v)] := by
  induction acc with
  | nil => rfl
  | cons p rest ih =>
    obtain ⟨k0, v0⟩ := p
    simp only [List.map_cons, List.mem_cons, not_or] at h
    simp [setEntry, Ne.symm h.1, ih h.2]

theorem setEntry_keys_nodup {acc : List (String × List String)} {k : String}
    (v : List String) (h : (acc.map Prod.fst).Nodup) :
    ((setEntry acc k v).map Prod.fst).Nodup := by
  by_cases hm : k ∈ acc.map Prod.fst
  · rw [setEntry_keys_of_mem v hm]
    exact h
  · rw [setEntry_of_not_mem v hm]
    simp only [List.map_append, List.map_cons, List.map_nil]
    rw [List.nodup_append]
    exact ⟨h, List.nodup_singleton k, by simpa using hm⟩

theorem setEntry_mem_val {acc : List (String × List String)} {k : String}
    {v : List String} {p : String × List String} (h : p ∈ setEntry acc k v) :
    p.2 = v ∨ p ∈ acc := by
  induction acc with
  | nil =>
    simp only [setEntry, List.mem_singleton] at h
    subst h
    exact Or.inl rfl
  | cons q rest ih =>
    obtain ⟨k0, v0⟩ := q
    by_cases hk : k0 = k
    · simp only [setEntry, if_pos hk, List.mem_cons] at h
      rcases h with h | h
      · subst h
        exact Or.inl rfl
      · exact Or.inr (List.mem_cons_of_mem _ h)
    · simp only [setEntry, if_neg hk, List.mem_cons] at h
      rcases h with h | h
      · subst h
        exact Or.inr (List.mem_cons_self _ _)
      · rcases ih h with h1 | h1
        · exact Or.inl h1
        · exact Or.inr (List.mem_cons_of_mem _ h1)

/-! ### The column loop and the section loop -/

theorem columnsLoop_append {c r : List String} (hc : TitleFree c) (hr : HeadTitle r) :
    columnsLoop (c ++ r) = (c.map splitPipes, r) := by
  induction c with
  | nil =>
    cases r with
    | nil => rfl
    | cons x xs =>
      have hx : x ∈ section_title_list := hr
      simp [columnsLoop, hx]
  | cons a c ih =>
    have ha : a ∉ section_title_list := hc a (List.mem_cons_self a c)
    have hc2 : TitleFree c := fun x hx => hc x (List.mem_cons_of_mem a hx)
    simp [columnsLoop, ha, ih hc2]

theorem filterBody_cons (excl : List String) (a : String) (b : List String) :
    filterBody excl (a :: b)
      = (if isExcluded excl a then [] else [pyStrip a]) ++ filterBody excl b := by
  by_cases h : isExcluded excl a <;> simp [filterBody, List.filter_cons, h]

theorem filterBody_perm (excl : List String) {b b' : List String} (h : b.Perm b') :
    (filterBody excl b).Perm (filterBody excl b') :=
  (h.filter _).map _

theorem sectionsGo_append (excl : List String) {b r : List String}
    (hb : TitleFree b) :
    ∀ acc cur buf, sectionsGo excl acc cur buf (b ++ r)
      = sectionsGo excl acc cur (buf ++ filterBody excl b) r := by
  induction b with
  | nil =>
    intro acc cur buf
    simp [filterBody]
  | cons a b ih =>
    intro acc cur buf
    have ha : a ∉ section_title_list := hb a (List.mem_cons_self a b)
    have hb2 : TitleFree b := fun x hx => hb x (List.mem_cons_of_mem a hx)
    simp only [List.cons_append, sectionsGo, if_neg ha, List.append_eq]
    rw [ih hb2, filterBody_cons, ← List.append_assoc]

theorem SectionWisePerm.nil_iff {r r' : List String} (h : SectionWisePerm r r') :
    r = [] ↔ r' = [] := by
  cases h with
  | nil => simp
  | cons t b b' rest rest' => simp

theorem sectionsGo_perm (excl : List String) : ∀ {r r' : List String},
    SectionWisePerm r r' → ∀ acc cur {buf buf' : List String}, buf.Perm buf' →
      sectionsGo excl acc cur buf r = sectionsGo excl acc cur buf' r' := by
  intro r r' hswp
  induction hswp with
  | nil =>
    intro acc cur buf buf' hb
    simp [sectionsGo, sortLines_congr hb]
  | cons t b b' rest rest' hperm htf hht hrec ih =>
    intro acc cur buf buf' hb
    have htf' : TitleFree b' := fun x hx => htf x (hperm.mem_iff.mpr hx)
    have hsort : sortLines buf = sortLines buf' := sortLines_congr hb
    rcases eq_or_ne (b ++ rest) [] with hbr | hbr
    · obtain ⟨hb0, hr0⟩ := List.append_eq_nil.mp hbr
      have hb0' : b' = [] := List.Perm.eq_nil (by rw [← hb0]; exact hperm.symm)
      have hr0' : rest' = [] := hrec.nil_iff.mp hr0
      subst hb0
      subst hr0
      subst hb0'
      subst hr0'
      by_cases ht : t ∈ section_title_list
      · simp [sectionsGo, ht]
      · have hX : sortLines (buf ++ (if isExcluded excl t then [] else [pyStrip t]))
            = sortLines (buf' ++ (if isExcluded excl t then [] else [pyStrip t])) :=
          sortLines_congr (hb.append_right _)
        simp [sectionsGo, ht, hX]
    · have hbr' : b' ++ rest' ≠ [] := by
        intro h0
        obtain ⟨hb0', hr0'⟩ := List.append_eq_nil.mp h0
        apply hbr
        rw [List.append_eq_nil]
        exact ⟨List.Perm.eq_nil (by rw [← hb0']; exact hperm), hrec.nil_iff.mpr hr0'⟩
      by_cases ht : t ∈ section_title_list
      · obtain ⟨x, xs, hxs⟩ := List.exists_cons_of_ne_nil hbr
        obtain ⟨y, ys, hys⟩ := List.exists_cons_of_ne_nil hbr'
        have hL : sectionsGo excl acc cur buf (t :: (b ++ rest))
            = sectionsGo excl (setEntry acc cur (sortLines buf)) t [] (b ++ rest) := by
          rw [hxs]
          simp [sectionsGo, ht]
        have hR : sectionsGo excl acc cur buf' (t :: (b' ++ rest'))
            = sectionsGo excl (setEntry acc cur (sortLines buf')) t [] (b' ++ rest') := by
          rw [hys]
          simp [sectionsGo, ht]
        rw [hL, hR, hsort, sectionsGo_append excl htf, sectionsGo_append excl htf']
        simp only [List.nil_append]
        exact ih _ _ (filterBody_perm excl hperm)
      · have hunL : sectionsGo excl acc cur buf (t :: (b ++ rest))
            = sectionsGo excl acc cur
                (buf ++ (if isExcluded excl t then [] else [pyStrip t])) (b ++ rest) := by
          simp [sectionsGo, ht]
        have hunR : sectionsGo excl acc cur buf' (t :: (b' ++ rest'))
            = sectionsGo excl acc cur
                (buf' ++ (if isExcluded excl t then [] else [pyStrip t])) (b' ++ rest') := by
          simp [sectionsGo, ht]
        rw [hunL, hunR, sectionsGo_append excl htf, sectionsGo_append excl htf']
        exact ih _ _ ((hb.append_right _).append (filterBody_perm excl hperm))

theorem sectionsRun_perm (excl : List String) {r r' : List String}
    (hswp : SectionWisePerm r r') : sectionsRun excl r = sectionsRun excl r' := by
  cases hswp with
  | nil => rfl
  | cons t b b' rest rest' hperm htf hht hrec =>
    rcases eq_or_ne (b ++ rest) [] with hbr | hbr
    · obtain ⟨hb0, hr0⟩ := List.append_eq_nil.mp hbr
      have hb0' : b' = [] := List.Perm.eq_nil (by rw [← hb0]; exact hperm.symm)
      have hr0' : rest' = [] := hrec.nil_iff.mp hr0
      subst hb0
      subst hr0
      subst hb0'
      subst hr0'
      rfl
    · have hbr' : b' ++ rest' ≠ [] := by
        intro h0
        obtain ⟨hb0', hr0'⟩ := List.append_eq_nil.mp h0
        apply hbr
        rw [List.append_eq_nil]
        exact ⟨List.Perm.eq_nil (by rw [← hb0']; exact hperm), hrec.nil_iff.mpr hr0'⟩
      obtain ⟨x, xs, hxs⟩ := List.exists_cons_of_ne_nil hbr
      obtain ⟨y, ys, hys⟩ := List.exists_cons_of_ne_nil hbr'
      have htf2 : TitleFree b' := fun x hx => htf x (hperm.mem_iff.mpr hx)
      have hL : sectionsRun excl (t :: (b ++ rest)) = sectionsGo excl [] t [] (b ++ rest) := by
        rw [hxs]
        simp [sectionsRun]
      have hR : sectionsRun excl (t :: (b' ++ rest')) = sectionsGo excl [] t [] (b' ++ rest') := by
        rw [hys]
        simp [sectionsRun]
      rw [hL, hR, sectionsGo_append excl htf, sectionsGo_append excl htf2]
      simp only [List.nil_append]
      exact sectionsGo_perm excl hrec _ _ (filterBody_perm excl hperm)

theorem SectionWisePerm.headTitle_iff {r r' : List String} (h : SectionWisePerm r r') :
    HeadTitle r ↔ HeadTitle r' := by
  cases h with
  | nil => exact Iff.rfl
  | cons t b b' rest rest' => exact Iff.rfl

theorem formatItems_of_skip_cons (excl : List String) {items rest : List String}
    (hsk : skipHeaderLines items = some rest) (hne : rest ≠ []) :
    formatItems excl items
      = (sectionsRun excl (columnsLoop rest).2).bind
          (fun secs => some ⟨sortRows (columnsLoop rest).1, secs⟩) := by
  obtain ⟨x, xs, rfl⟩ := List.exists_cons_of_ne_nil hne
  unfold formatItems
  rw [hsk]
  rfl

theorem formatItems_of_skip_nil (excl : List String) {items : List String}
    (hsk : skipHeaderLines items = some []) : formatItems excl items = none := by
  unfold formatItems
  rw [hsk]
  rfl

/-- Claim C2 as stated is false: permuting "the lines before the first
section title" may move a line into or out of the header-skipping
positions.  Here swapping a table-header line with the single column row
changes the Schema Document. -/
theorem C2_counterexample_header_swap :
    List.Perm ["Table t", "a | b"] ["a | b", "Table t"]
    ∧ formatLines [] ["Table t", "a | b"] ≠ formatLines [] ["a | b", "Table t"] :=
  ⟨by decide, by decide⟩

/-- Claim C2 (amended): for an item list made of a header block `hd`
(exactly what the header skipping consumes, on both sides), column rows `c`
(none a section title), and a section remainder `r` (empty or starting with
a section title), permuting the column rows and permuting the lines inside
each section leaves the Schema Document unchanged. -/
theorem C2_normalizer_order_insensitive (excl hd c c' r r' : List String)
    (hskip : skipHeaderLines (hd ++ (c ++ r)) = some (c ++ r))
    (hskip2 : skipHeaderLines (hd ++ (c' ++ r')) = some (c' ++ r'))
    (hcp : c.Perm c') (hct : TitleFree c) (hht : HeadTitle r)
    (hswp : SectionWisePerm r r') :
    formatItems excl (hd ++ (c ++ r)) = formatItems excl (hd ++ (c' ++ r')) := by
  have hct2 : TitleFree c' := fun x hx => hct x (hcp.mem_iff.mpr hx)
  have hht2 : HeadTitle r' := hswp.headTitle_iff.mp hht
  rcases eq_or_ne (c ++ r) [] with h0 | h0
  · obtain ⟨hc0, hr0⟩ := List.append_eq_nil.mp h0
    have hc0' : c' = [] := List.Perm.eq_nil (by rw [← hc0]; exact hcp.symm)
    have hr0' : r' = [] := hswp.nil_iff.mp hr0
    subst hc0
    subst hr0
    subst hc0'
    subst hr0'
    simp only [List.nil_append] at hskip hskip2 ⊢
  · have h0' : c' ++ r' ≠ [] := by
      intro hx
      obtain ⟨hc0', hr0'⟩ := List.append_eq_nil.mp hx
      apply h0
      rw [List.append_eq_nil]
      exact ⟨List.Perm.eq_nil (by rw [← hc0']; exact hcp), hswp.nil_iff.mpr hr0'⟩
    rw [formatItems_of_skip_cons excl hskip h0, formatItems_of_skip_cons excl hskip2 h0',
      columnsLoop_append hct hht, columnsLoop_append hct2 hht2]
    simp only
    rw [sortRows_congr (hcp.map splitPipes), sectionsRun_perm excl hswp]

/-- Witness for the amended C2: swapped column rows and swapped index lines
produce the same Schema Document. -/
theorem C2_normalizer_order_insensitive_witness :
    formatItems [] ["Table public.t", "b | x", "a | y", "Indexes:", "i2", "i1"]
      = formatItems [] ["Table public.t", "a | y", "b | x", "Indexes:", "i1", "i2"] :=
  C2_normalizer_order_insensitive [] ["Table public.t"] ["b | x", "a | y"]
    ["a | y", "b | x"] ["Indexes:", "i2", "i1"] ["Indexes:", "i1", "i2"]
    (by decide) (by decide) (by decide) (by decide) (by decide)
    (SectionWisePerm.cons "Indexes:" ["i2", "i1"] ["i1", "i2"] [] []
      (by decide) (by decide) trivial SectionWisePerm.nil)

/-! ### Output invariants of the section loop -/

theorem sectionsGo_inv (excl : List String) : ∀ (l : List String)
    (acc : List (String × List String)) (cur : String) (buf : List String)
    {out : List (String × List String)},
    sectionsGo excl acc cur buf l = some out →
    ((acc.map Prod.fst).Nodup → (out.map Prod.fst).Nodup)
    ∧ ((∀ p ∈ acc, p.2.Sorted lineLe) → ∀ p ∈ out, p.2.Sorted lineLe) := by
  intro l
  induction l with
  | nil =>
    intro acc cur buf out h
    simp only [sectionsGo, Option.some.injEq] at h
    subst h
    constructor
    · exact fun hnd => setEntry_keys_nodup _ hnd
    · intro hs p hp
      rcases setEntry_mem_val hp with h1 | h1
      · rw [h1]
        exact sortLines_sorted buf
      · exact hs p h1
  | cons item rest ih =>
    intro acc cur buf out h
    by_cases ht : item ∈ section_title_list
    · cases rest with
      | nil => simp [sectionsGo, ht] at h
      | cons x xs =>
        simp only [sectionsGo, if_pos ht] at h
        have hrec := ih (setEntry acc cur (sortLines buf)) item [] h
        constructor
        · intro hnd
          exact hrec.1 (setEntry_keys_nodup _ hnd)
        · intro hs
          apply hrec.2
          intro p hp
          rcases setEntry_mem_val hp with h1 | h1
          · rw [h1]
            exact sortLines_sorted buf
          · exact hs p h1
    · simp only [sectionsGo, if_neg ht] at h
      exact ih acc cur _ h

theorem sectionsRun_inv (excl : List String) {l : List String}
    {out : List (String × List String)} (h : sectionsRun excl l = some out) :
    (out.map Prod.fst).Nodup ∧ ∀ p ∈ out, p.2.Sorted lineLe := by
  cases l with
  | nil =>
    simp only [sectionsRun, Option.some.injEq] at h
    subst h
    simp
  | cons t rest =>
    cases rest with
    | nil => simp [sectionsRun] at h
    | cons x xs =>
      simp only [sectionsRun] at h
      have hrec := sectionsGo_inv excl (x :: xs) [] t [] h
      exact ⟨hrec.1 (by simp), hrec.2 (by simp)⟩

/-- Claim C8: every Schema Document the normalizer returns has pairwise
distinct section keys and ascending-sorted line lists, for the Columns
entry and for every named section, whatever the raw text and excluded
keywords. -/
theorem C8_schema_doc_sorted_unique (raw_schema : String)
    (exclued_keywords : List String) (doc : SchemaDoc)
    (h : _format_raw_schema raw_schema exclued_keywords = some doc) :
    (doc.sections.map Prod.fst).Nodup
    ∧ doc.columns.Sorted rowLe
    ∧ ∀ p ∈ doc.sections, p.2.Sorted lineLe := by
  unfold _format_raw_schema formatLines at h
  revert h
  generalize toItemList (pySplitChar '\n' raw_schema) = items
  intro h
  cases hsk : skipHeaderLines items with
  | none =>
    unfold formatItems at h
    rw [hsk] at h
    simp at h
  | some rest =>
    cases rest with
    | nil =>
      rw [formatItems_of_skip_nil exclued_keywords hsk] at h
      simp at h
    | cons x xs =>
      rw [formatItems_of_skip_cons exclued_keywords hsk (by simp)] at h
      cases hsr : sectionsRun exclued_keywords (columnsLoop (x :: xs)).2 with
      | none =>
        rw [hsr] at h
        simp at h
      | some secs =>
        rw [hsr] at h
        simp only [Option.some_bind, Option.some.injEq] at h
        subst h
        exact ⟨(sectionsRun_inv _ hsr).1, sortRows_sorted _, (sectionsRun_inv _ hsr).2⟩

/-- Witness for C8 on a concrete describe-table text. -/
theorem C8_schema_doc_sorted_unique_witness :
    (((⟨[["a", "int"]], [("Indexes:", ["ix"])]⟩ : SchemaDoc).sections.map
        Prod.fst).Nodup)
    ∧ (⟨[["a", "int"]], [("Indexes:", ["ix"])]⟩ : SchemaDoc).columns.Sorted rowLe
    ∧ ∀ p ∈ (⟨[["a", "int"]], [("Indexes:", ["ix"])]⟩ : SchemaDoc).sections,
        p.2.Sorted lineLe :=
  C8_schema_doc_sorted_unique "a | int\nIndexes:\nix" []
    ⟨[["a", "int"]], [("Indexes:", ["ix"])]⟩ (by decide)

/-! ### Block decomposition of the section remainder -/

theorem flattenBlocks_cons (p : String × List String)
    (bs : List (String × List String)) :
    flattenBlocks (p :: bs) = p.1 :: (p.2 ++ flattenBlocks bs) := by
  simp [flattenBlocks]

theorem flattenBlocks_ne_nil {bs : List (String × List String)} (h : bs ≠ []) :
    flattenBlocks bs ≠ [] := by
  cases bs with
  | nil => exact absurd rfl h
  | cons p bs => simp [flattenBlocks_cons]

theorem flattenBlocks_headTitle {bs : List (String × List String)}
    (hwf : WFBlocks bs) : HeadTitle (flattenBlocks bs) := by
  cases bs with
  | nil => trivial
  | cons p bs =>
    rw [flattenBlocks_cons]
    exact (hwf p (List.mem_cons_self p bs)).1

theorem sectionsGo_flatten (excl : List String) : ∀ (bs : List (String × List String)),
    WFBlocks bs → LastBlockFilled bs →
    ∀ acc cur buf, sectionsGo excl acc cur buf (flattenBlocks bs)
      = some (bs.foldl (fun a p => setEntry a p.1 (sortLines (filterBody excl p.2)))
          (setEntry acc cur (sortLines buf))) := by
  intro bs
  induction bs with
  | nil =>
    intro _ _ acc cur buf
    simp [flattenBlocks, sectionsGo]
  | cons p bs ih =>
    intro hwf hlast acc cur buf
    obtain ⟨t, b⟩ := p
    rw [flattenBlocks_cons]
    have ht : t ∈ section_title_list := (hwf (t, b) (List.mem_cons_self _ _)).1
    have htf : TitleFree b := (hwf (t, b) (List.mem_cons_self _ _)).2
    have hne : b ++ flattenBlocks bs ≠ [] := by
      cases bs with
      | nil =>
        have hb : b ≠ [] := hlast
        simpa [flattenBlocks] using hb
      | cons q bs2 =>
        have hq : flattenBlocks (q :: bs2) ≠ [] := flattenBlocks_ne_nil (by simp)
        intro hx
        exact hq (List.append_eq_nil.mp hx).2
    obtain ⟨x, xs, hxs⟩ := List.exists_cons_of_ne_nil hne
    have hun : sectionsGo excl acc cur buf (t :: (b ++ flattenBlocks bs))
        = sectionsGo excl (setEntry acc cur (sortLines buf)) t [] (b ++ flattenBlocks bs) := by
      rw [hxs]
      simp [sectionsGo, ht]
    have hwf2 : WFBlocks bs := fun q hq => hwf q (List.mem_cons_of_mem _ hq)
    have hlast2 : LastBlockFilled bs := by
      cases bs with
      | nil => trivial
      | cons q bs2 => exact hlast
    rw [hun, sectionsGo_append excl htf]
    simp only [List.nil_append]
    rw [ih hwf2 hlast2]
    simp [List.foldl_cons]

theorem sectionsRun_flatten (excl : List String) {bs : List (String × List String)}
    (hwf : WFBlocks bs) (hlast : LastBlockFilled bs) :
    sectionsRun excl (flattenBlocks bs)
      = some (bs.foldl
          (fun a p => setEntry a p.1 (sortLines (filterBody excl p.2))) []) := by
  cases bs with
  | nil => rfl
  | cons p bs =>
    obtain ⟨t, b⟩ := p
    rw [flattenBlocks_cons]
    have htf : TitleFree b := (hwf (t, b) (List.mem_cons_self _ _)).2
    have hne : b ++ flattenBlocks bs ≠ [] := by
      cases bs with
      | nil =>
        have hb : b ≠ [] := hlast
        simpa [flattenBlocks] using hb
      | cons q bs2 =>
        have hq : flattenBlocks (q :: bs2) ≠ [] := flattenBlocks_ne_nil (by simp)
        intro hx
        exact hq (List.append_eq_nil.mp hx).2
    obtain ⟨x, xs, hxs⟩ := List.exists_cons_of_ne_nil hne
    have hun : sectionsRun excl (t :: (b ++ flattenBlocks bs))
        = sectionsGo excl [] t [] (b ++ flattenBlocks bs) := by
      rw [hxs]
      simp [sectionsRun]
    have hwf2 : WFBlocks bs := fun q hq => hwf q (List.mem_cons_of_mem _ hq)
    have hlast2 : LastBlockFilled bs := by
      cases bs with
      | nil => trivial
      | cons q bs2 => exact hlast
    rw [hun, sectionsGo_append excl htf]
    simp only [List.nil_append]
    rw [sectionsGo_flatten excl bs hwf2 hlast2]
    simp [List.foldl_cons, setEntry]

theorem foldl_setEntry_eq_append (g : String × List String → List String) :
    ∀ (bs : List (String × List String)) (acc : List (String × List String)),
    (bs.map Prod.fst).Nodup → (∀ t ∈ bs.map Prod.fst, t ∉ acc.map Prod.fst) →
    bs.foldl (fun a p => setEntry a p.1 (g p)) acc
      = acc ++ bs.map (fun p => (p.1, g p)) := by
  intro bs
  induction bs with
  | nil =>
    intro acc _ _
    simp
  | cons p bs ih =>
    intro acc hnd hdisj
    simp only [List.map_cons, List.nodup_cons] at hnd
    simp only [List.foldl_cons]
    rw [setEntry_of_not_mem (g p) (hdisj p.1 (by simp))]
    rw [ih (acc ++ [(p.1, g p)]) hnd.2 ?_]
    · simp
    · intro t ht
      simp only [List.map_append, List.map_cons, List.map_nil, List.mem_append,
        List.mem_singleton, not_or]
      refine ⟨hdisj t (by simp [ht]), ?_⟩
      intro he
      exact hnd.1 (he ▸ ht)

theorem dlookup_blocks_map (g : String × List String → List String) :
    ∀ (bs : List (String × List String)) {t : String} {b : List String},
    (bs.map Prod.fst).Nodup → (t, b) ∈ bs →
    dlookup t (bs.map (fun p => (p.1, g p))) = some (g (t, b)) := by
  intro bs
  induction bs with
  | nil =>
    intro t b _ h
    simp at h
  | cons p bs ih =>
    intro t b hnd hmem
    obtain ⟨t0, b0⟩ := p
    simp only [List.map_cons, List.nodup_cons] at hnd
    rcases List.mem_cons.mp hmem with h1 | h1
    · rw [Prod.mk.injEq] at h1
      obtain ⟨ht, hb⟩ := h1
      subst ht
      subst hb
      simp [dlookup]
    · have hne : t0 ≠ t := by
        intro he
        subst he
        exact hnd.1 (List.mem_map.mpr ⟨(t0, b), h1, rfl⟩)
      simp [dlookup, hne, ih hnd.2 h1]

/-- Claim C3 as stated is false: the excluded-substring test runs only in
the section loop, so a column row containing an excluded keyword still
appears, split on pipes, in the Columns entry of the output. -/
theorem C3_counterexample_column_row_not_excluded :
    pyIn "bucardo" "bucardo | x" = true
    ∧ formatLines ["bucardo"] ["bucardo | x", "Indexes:", "a"]
        = some ⟨[["bucardo", "x"]], [("Indexes:", ["a"])]⟩ :=
  ⟨by decide, by decide⟩

/-- Claim C3 (amended): exclusion applies only to section-body lines.  For
an input decomposing into skipped headers `hd`, column rows `c` and
title-led blocks `bs` with pairwise distinct titles and a nonempty final
body: every column row appears trimmed and split on pipes regardless of the
excluded substrings; each section's line list is exactly the ascending sort
of its trimmed non-excluded body lines, so a section line containing an
excluded substring never appears, and every other body line does (trimmed);
and everything in a section list arises from some non-excluded body line. -/
theorem C3_exclusion_applies_to_sections (excl hd c : List String)
    (bs : List (String × List String)) (doc : SchemaDoc)
    (hskip : skipHeaderLines (hd ++ (c ++ flattenBlocks bs))
        = some (c ++ flattenBlocks bs))
    (hct : TitleFree c) (hwf : WFBlocks bs) (hnd : (bs.map Prod.fst).Nodup)
    (hlast : LastBlockFilled bs)
    (hdoc : formatItems excl (hd ++ (c ++ flattenBlocks bs)) = some doc) :
    doc.columns = sortRows (c.map splitPipes)
    ∧ doc.sections = bs.map (fun p => (p.1, sortLines (filterBody excl p.2)))
    ∧ (∀ t b, (t, b) ∈ bs →
        dlookup t doc.sections = some (sortLines (filterBody excl b))
        ∧ ∀ x ∈ b, isExcluded excl x = false →
            pyStrip x ∈ sortLines (filterBody excl b))
    ∧ (∀ p ∈ doc.sections, ∀ l ∈ p.2, ∃ x, isExcluded excl x = false
        ∧ l = pyStrip x ∧ ∃ b2, (p.1, b2) ∈ bs ∧ x ∈ b2) := by
  rcases eq_or_ne (c ++ flattenBlocks bs) [] with h0 | h0
  · rw [h0] at hskip hdoc
    rw [formatItems_of_skip_nil excl hskip] at hdoc
    exact absurd hdoc (by simp)
  · rw [formatItems_of_skip_cons excl hskip h0,
      columnsLoop_append hct (flattenBlocks_headTitle hwf)] at hdoc
    simp only at hdoc
    rw [sectionsRun_flatten excl hwf hlast] at hdoc
    simp only [Option.some_bind, Option.some.injEq] at hdoc
    subst hdoc
    have hsections :
        (⟨sortRows (c.map splitPipes),
          bs.foldl (fun a p => setEntry a p.1 (sortLines (filterBody excl p.2)))
            []⟩ : SchemaDoc).sections
        = bs.map (fun p => (p.1, sortLines (filterBody excl p.2))) := by
      show bs.foldl _ [] = _
      rw [foldl_setEntry_eq_append (fun p => sortLines (filterBody excl p.2)) bs []
        hnd (by simp)]
      simp
    refine ⟨rfl, hsections, ?_, ?_⟩
    · intro t b hmem
      constructor
      · rw [hsections]
        exact dlookup_blocks_map _ bs hnd hmem
      · intro x hx hexcl
        rw [mem_sortLines]
        exact List.mem_map.mpr ⟨x, List.mem_filter.mpr ⟨hx, by simp [hexcl]⟩, rfl⟩
    · intro p hp l hl
      rw [hsections] at hp
      obtain ⟨q, hq, rfl⟩ := List.mem_map.mp hp
      have hl2 : l ∈ filterBody excl q.2 := mem_sortLines.mp hl
      obtain ⟨x, hxf, hxs⟩ := List.mem_map.mp hl2
      obtain ⟨hxb, hxe⟩ := List.mem_filter.mp hxf
      refine ⟨x, ?_, hxs.symm, q.2, ?_, hxb⟩
      · simpa using hxe
      · exact hq

/-- Witness for the amended C3: a column row survives despite matching the
excluded keyword, and the section body is filtered and sorted. -/
theorem C3_exclusion_applies_to_sections_witness :
    (⟨[["bucardo", "1"]], [("Indexes:", ["keep"])]⟩ : SchemaDoc).columns
        = sortRows ((["bucardo | 1"] : List String).map splitPipes)
    ∧ (⟨[["bucardo", "1"]], [("Indexes:", ["keep"])]⟩ : SchemaDoc).sections
        = ([("Indexes:", ["keep", "has bucardo inside"])] :
            List (String × List String)).map
            (fun p => (p.1, sortLines (filterBody ["bucardo"] p.2))) :=
  ⟨(C3_exclusion_applies_to_sections ["bucardo"] [] ["bucardo | 1"]
      [("Indexes:", ["keep", "has bucardo inside"])]
      ⟨[["bucardo", "1"]], [("Indexes:", ["keep"])]⟩
      (by decide) (by decide) (by decide) (by decide) (by decide) (by decide)).1,
   (C3_exclusion_applies_to_sections ["bucardo"] [] ["bucardo | 1"]
      [("Indexes:", ["keep", "has bucardo inside"])]
      ⟨[["bucardo", "1"]], [("Indexes:", ["keep"])]⟩
      (by decide) (by decide) (by decide) (by decide) (by decide) (by decide)).2.1⟩

/-- Claim C5 is contradicted by the code: `_format_raw_schema` is not total.
On an empty text the first header check reads `item_list[0]` of an empty
list, and when the last line is a section title the section loop reads
`item_list[index]` one past the end; both raise `IndexError` (modelled as
`none`).  The claim's other cases (no header lines at all, zero column rows
before the first section title) do return a Schema Document. -/
theorem C5_normalizer_not_total :
    _format_raw_schema "" [] = none
    ∧ _format_raw_schema "a | int\nIndexes:" [] = none
    ∧ (_format_raw_schema "a | int" []).isSome = true
    ∧ (_format_raw_schema "Indexes:\nix" []).isSome = true :=
  ⟨by decide, by decide, by decide, by decide⟩

/-- `'Total {}: {}'.format(x)` with a single argument: the second field has
no argument and raises `IndexError`, whatever the argument is. -/
theorem pyFormat_two_fields_one_arg (r : String) :
    pyFormat "Total \x7b\x7d: \x7b\x7d" [r] = none := rfl

/-- Claim C6 is contradicted by the code: the final line of the info branch
is `'Total {}: {}'.format(diff_type.replace('_', ' ', total))` - `total` is
passed as `replace`'s count argument (a `TypeError` whenever a size/count
category has made it a string) and `format` is left with one argument for
two fields (an `IndexError` otherwise) - so the branch always raises and
the total line is never printed, for every category, document, verbosity
and size formatter. -/
theorem C6_info_branch_always_raises (size_fmt : Int → String)
    (diff_type : String) (table_data : List (String × Int)) (verbose : Bool) :
    (info_branch size_fmt diff_type table_data verbose).2 = false
    ∧ ∀ s, InfoEvent.totalLine s
        ∉ (info_branch size_fmt diff_type table_data verbose).1 := by
  by_cases h1 : pyIn "size" diff_type
  · constructor
    · simp [info_branch, h1, pyReplace]
    · intro s
      cases verbose <;> simp [info_branch, h1, pyReplace]
  · by_cases h2 : pyIn "count" diff_type
    · constructor
      · simp [info_branch, h1, h2, pyReplace]
      · intro s
        cases verbose <;> simp [info_branch, h1, h2, pyReplace]
    · constructor
      · simp [info_branch, h1, h2, pyReplace, pyFormat_two_fields_one_arg]
      · intro s
        cases verbose <;>
          simp [info_branch, h1, h2, pyReplace, pyFormat_two_fields_one_arg]

/-- Claim C4 is contradicted by the code for the sequence extractor: the
create statement defines `get_seq_last_value(text)` but the drop statement
run in the `finally` block targets `get_seq_last_value(text, text)`, a
different routine signature, so the helper created by `load` still exists
in the database when `load` returns (whatever routines existed before).
The row-count extractor's drop does match its create statement: its helper
is gone on the success path and on the path where the create itself
failed. -/
theorem C4_sequence_helper_survives_drop :
    parseCreateFuncSig CREATE_GET_SEQUENCE_LAST_VALUE_FUNC_SQL
        = some ("get_seq_last_value", ["text"])
    ∧ parseDropFuncSig REMOVE_GET_SEQUENCE_LAST_VALUE_FUNC_SQL
        = some ("get_seq_last_value", ["text", "text"])
    ∧ (∀ st, ("get_seq_last_value", ["text"])
        ∈ helperLoadEffect CREATE_GET_SEQUENCE_LAST_VALUE_FUNC_SQL
            REMOVE_GET_SEQUENCE_LAST_VALUE_FUNC_SQL true st)
    ∧ parseCreateFuncSig CREATE_ROW_COUNT_FUNC_SQL
        = some ("count_rows", ["text", "text"])
    ∧ parseDropFuncSig REMOVE_ROW_COUNT_FUNC_SQL
        = some ("count_rows", ["text", "text"])
    ∧ (∀ st createSucceeds, ("count_rows", ["text", "text"])
        ∉ helperLoadEffect CREATE_ROW_COUNT_FUNC_SQL
            REMOVE_ROW_COUNT_FUNC_SQL createSucceeds st) := by
  have hsc : parseCreateFuncSig CREATE_GET_SEQUENCE_LAST_VALUE_FUNC_SQL
      = some ("get_seq_last_value", ["text"]) := by decide
  have hsd : parseDropFuncSig REMOVE_GET_SEQUENCE_LAST_VALUE_FUNC_SQL
      = some ("get_seq_last_value", ["text", "text"]) := by decide
  have hrc : parseCreateFuncSig CREATE_ROW_COUNT_FUNC_SQL
      = some ("count_rows", ["text", "text"]) := by decide
  have hrd : parseDropFuncSig REMOVE_ROW_COUNT_FUNC_SQL
      = some ("count_rows", ["text", "text"]) := by decide
  refine ⟨hsc, hsd, ?_, hrc, hrd, ?_⟩
  · intro st
    simp only [helperLoadEffect, hsc, hsd, if_pos, applyCreateFunction,
      applyDropIfExists]
    rw [List.mem_filter]
    constructor
    · by_cases hmem : ("get_seq_last_value", ["text"]) ∈ st
      · simp [hmem]
      · simp [hmem]
    · decide
  · intro st createSucceeds
    simp only [helperLoadEffect, hrc, hrd, applyDropIfExists]
    rw [List.mem_filter]
    simp

/-- Claim C9: an unrecognized category string fails `_validate`, so `main`
terminates at the validation step and no database connection is
attempted. -/
theorem C9_invalid_category_no_connection (args : Args)
    (h : args.type ∉ validTypeList) :
    _validate args = none
    ∧ main_events args = [MainEvent.validationError]
    ∧ ∀ dsn, MainEvent.connectAttempt dsn ∉ main_events args := by
  have hv : _validate args = none := by
    unfold _validate
    rw [if_neg]
    intro hand
    exact h hand.1
  refine ⟨hv, ?_, ?_⟩
  · unfold main_events
    rw [hv]
  · intro dsn
    unfold main_events
    rw [hv]
    simp

/-- Witness for C9 at a concrete unrecognized category. -/
theorem C9_invalid_category_no_connection_witness :
    _validate ⟨"row_counts", "postgres://u@h:5432/db", none, false, false, false⟩
        = none
    ∧ main_events ⟨"row_counts", "postgres://u@h:5432/db", none, false, false, false⟩
        = [MainEvent.validationError]
    ∧ ∀ dsn, MainEvent.connectAttempt dsn
        ∉ main_events ⟨"row_counts", "postgres://u@h:5432/db", none, false, false,
            false⟩ :=
  C9_invalid_category_no_connection
    ⟨"row_counts", "postgres://u@h:5432/db", none, false, false, false⟩ (by decide)

end PgDiff
